import Mathlib

/-!
Verification of the mortimint log-parsing engine (`file.go`, plus the
per-source configuration in the second source file): a shallow embedding of
the entry-recognition, tokenization-driven nesting/path builder, emitter and
name-cleansing code, with theorems settling the frozen claims about it.

Strings are modelled as Lean `String`; the log inputs concerned are ASCII, so
Go's byte-indexed slicing coincides with character indexing.  Calls into
external libraries (Go's `go/scanner` tokenizer, `regexp`, `strings`) are
modelled at their call boundary: `strings` functions are embedded directly,
the concrete regular expressions of the source are embedded as character
scanners faithful to their patterns, and entry-body token streams (the output
of `go/scanner`, an external library) are inputs to `processEntryTokens`,
exactly as in the source, where the function consumes a `scanner.Scanner`.
-/

/-- The subset of `go/token.Token` values that the engine's code paths
distinguish: the keys of `levelDelta` and `skipToken`, `IDENT`/`STRING`
(used by `nameFromTokLits`), and a catch-all `OTHER` carrying the token's
`String()` rendering for any further operator or keyword token (all of
which the engine treats alike: not in `levelDelta`, not in `skipToken`). -/
inductive Tok where
  | IDENT
  | INT
  | FLOAT
  | CHAR
  | STRING
  | LPAREN
  | RPAREN
  | LBRACK
  | RBRACK
  | LBRACE
  | RBRACE
  | ADD
  | SUB
  | MUL
  | QUO
  | COLON
  | COMMA
  | PERIOD
  | SEMICOLON
  | ASSIGN
  | SHL
  | SHR
  | OTHER : String → Tok
deriving DecidableEq, Repr

/-- `go/token.Token.String()` for the modelled tokens: literal-kind tokens
render as their names, operators as their symbols. -/
def tokString : Tok → String
  | Tok.IDENT => "IDENT"
  | Tok.INT => "INT"
  | Tok.FLOAT => "FLOAT"
  | Tok.CHAR => "CHAR"
  | Tok.STRING => "STRING"
  | Tok.LPAREN => "("
  | Tok.RPAREN => ")"
  | Tok.LBRACK => "["
  | Tok.RBRACK => "]"
  | Tok.LBRACE => "\x7b"
  | Tok.RBRACE => "\x7d"
  | Tok.ADD => "+"
  | Tok.SUB => "-"
  | Tok.MUL => "*"
  | Tok.QUO => "/"
  | Tok.COLON => ":"
  | Tok.COMMA => ","
  | Tok.PERIOD => "."
  | Tok.SEMICOLON => ";"
  | Tok.ASSIGN => "="
  | Tok.SHL => "<<"
  | Tok.SHR => ">>"
  | Tok.OTHER s => s

/-- `levelDelta` from file.go: how tokens affect the nesting depth.
Value 0 marks literal/punctuation leaf tokens that neither change depth nor
merge with neighbours; absence (`none`) marks mergeable tokens. -/
def levelDelta : Tok → Option Int
  | Tok.LPAREN => some 1
  | Tok.RPAREN => some (-1)
  | Tok.LBRACK => some 1
  | Tok.RBRACK => some (-1)
  | Tok.LBRACE => some 1
  | Tok.RBRACE => some (-1)
  | Tok.CHAR => some 0
  | Tok.INT => some 0
  | Tok.FLOAT => some 0
  | Tok.STRING => some 0
  | Tok.ADD => some 0
  | Tok.SUB => some 0
  | Tok.MUL => some 0
  | Tok.QUO => some 0
  | Tok.COLON => some 0
  | Tok.COMMA => some 0
  | Tok.PERIOD => some 0
  | Tok.SEMICOLON => some 0
  | _ => none

/-- `skipToken` from file.go: shift operators are discarded unconditionally. -/
def skipToken : Tok → Bool
  | Tok.SHL => true
  | Tok.SHR => true
  | _ => false

/-- The `tokLit` struct of file.go: a token, its literal string, and the
`emitted` flag ("Marked true when this tokLit has been emitted"). -/
structure TokLit where
  tok : Tok
  lit : String
  emitted : Bool
deriving DecidableEq, Repr

/-- `tokenLitString` from file.go: a token's literal if non-empty, else the
token's `String()` rendering. -/
def tokenLitString (tok : Tok) (lit : String) : String :=
  if lit ≠ ("") then lit else tokString tok

/-- `nameFromTokLits` from file.go: the literal of the last `IDENT` or
`STRING` token, or the empty string. -/
def nameFromTokLits : List TokLit → String
  | [] => ""
  | tl :: rest =>
    let r := nameFromTokLits rest
    if r ≠ ("") then r
    else if tl.tok = Tok.IDENT ∨ tl.tok = Tok.STRING then tl.lit
    else ""

/-- Model of Go `strings.Trim(s, cutset)`: remove leading and trailing
characters belonging to `cut`. -/
def goTrimList (cut : List Char) (l : List Char) : List Char :=
  ((l.dropWhile (fun c => cut.contains c)).reverse.dropWhile
    (fun c => cut.contains c)).reverse

/-- String wrapper for `goTrimList`. -/
def goTrim (s : String) (cut : List Char) : String :=
  String.mk (goTrimList cut s.data)

/-- Model of Go `strings.Join(parts, " ")`. -/
def joinSpace : List String → String
  | [] => ""
  | [x] => x
  | x :: rest => x ++ " " ++ joinSpace rest

/-- Model of Go `strings.Split(s, " ")`: split at every single space. -/
def splitSpaceList : List Char → List (List Char)
  | [] => [[]]
  | c :: rest =>
    let r := splitSpaceList rest
    if c = ' ' then [] :: r
    else match r with
      | [] => [[c]]
      | h :: t => (c :: h) :: t

/-- String wrapper for `splitSpaceList`, modelling `strings.Split(s, " ")`. -/
def goSplitSpace (s : String) : List String :=
  (splitSpaceList s.data).map String.mk

/-- Model of `re_int.MatchString(name)` where `re_int` is the unanchored
pattern `\d+` (second source file): it matches exactly when the string
contains at least one ASCII digit anywhere. -/
def reIntMatch (s : String) : Bool :=
  s.data.any (fun c => c.isDigit)

/-- Model of `strings.IndexAny(s, chars) >= 0`: true when `s` contains any
character of `chars`. -/
def indexAnyNonneg (s : String) (chars : List Char) : Bool :=
  s.data.any (fun c => chars.contains c)

/-- Model of Go `strings.HasPrefix(s, p)`. -/
def goHasPfx (s p : String) : Bool :=
  List.isPrefixOf p.data s.data

/-- The cutset `" \t\n\""` used by `cleanseName`'s trim. -/
def cleanseCut : List Char := [' ', '\t', '\n', '"']

/-- `cleanseName` from file.go: trim whitespace and double-quotes, then
return the empty string when the trimmed name contains any of `<`, `>`, `/`
or a space, equals one of the rejected keywords, starts with `0x`, or is
matched by the unanchored `re_int` (i.e. contains a digit); otherwise return
the trimmed name. -/
def cleanseName (name : String) : String :=
  let name := goTrim name cleanseCut
  if indexAnyNonneg name ['<', '>', '/', ' '] ||
      name == ("true") || name == ("false") ||
      name == ("ok") || name == ("pid") || name == ("uuid") ||
      goHasPfx name ("0x") || reIntMatch name
  then ""
  else name

/-- One call to `run.emitEntryPart` in `emitTokLits`: the record kind
(`MIDS`/`VALS`/`ENDS`), the path, the name (empty for free text), the
literal-kind string (`tok.String()`), the literal value, and the free-text
flag.  The per-entry constant arguments (timestamp, module, level, file
identifiers, offset, line) are threaded unchanged by the source and are
carried at the `processEntry` level of the model instead. -/
structure EmitRec where
  kind : String
  path : List String
  name : String
  tokStr : String
  lit : String
  freeText : Bool
deriving DecidableEq, Repr

/-- One call to `dict.AddDictEntry(tokStr, name, lit)` in `emitTokLits`. -/
structure DictAdd where
  tokStr : String
  name : String
  lit : String
deriving DecidableEq, Repr

/-- The cutset `"\t\n .:,"` used on the joined free-text runs. -/
def strsCut : List Char := ['\t', '\n', ' ', '.', ':', ',']

/-- Record-kind constants. -/
def kMIDS : String := "MIDS"

/-- Record-kind constant for name/value records. -/
def kVALS : String := "VALS"

/-- Record-kind constant for trailing free text. -/
def kENDS : String := "ENDS"

/-- Literal-kind constant used on free-text records. -/
def kSTRING : String := "STRING"

/-- The loop of `emitTokLits` (file.go lines 254-288), walking indices
`i = startAt, ..., len(tokLits)-1`.  `count` is the remaining iteration
count (`tokLits.length - i`), carried so the recursion is structural; `s`
is the local `var s []string` of the source.  Faithful to the source as
given: the loop reads `tokLit := tokLits[i]` (a copy), sets the copy's
`emitted` field (which therefore never reaches the slice), emits a `MIDS`
record for every non-emitted token, resets `s`, and emits a `VALS` record
plus a Dictionary entry when `cleanseName(nameFromTokLits(tokLits[0:i]))`
is non-empty (with the empty-path fallback splitting the name on spaces).
Returns the records, the dictionary additions, and the final value of `s`. -/
def emitLoop (path : List String) (tokLits : List TokLit) :
    Nat → Nat → List String → List EmitRec × List DictAdd × List String
  | 0, _, s => ([], [], s)
  | count + 1, i, s =>
    match tokLits[i]? with
    | none => ([], [], s)
    | some tl =>
      if tl.emitted then emitLoop path tokLits count (i + 1) s
      else
        let tokStr := tokString tl.tok
        let strs := goTrim (joinSpace s) strsCut
        let mids : EmitRec := ⟨kMIDS, path, "", kSTRING, strs, true⟩
        let name := cleanseName (nameFromTokLits (tokLits.take i))
        let valsPart : List EmitRec × List DictAdd :=
          if name ≠ ("") then
            let namePath := path
            let pair :=
              if namePath.length ≤ 0 then
                let parts := goSplitSpace name
                (parts.dropLast, parts.getLastD "")
              else (namePath, name)
            let namePath := pair.1
            let name := pair.2
            if name ≠ ("") then
              ([⟨kVALS, namePath, name, tokStr, tl.lit, false⟩],
               [⟨tokStr, name, tl.lit⟩])
            else ([], [])
          else ([], [])
        let rest := emitLoop path tokLits count (i + 1) []
        (mids :: valsPart.1 ++ rest.1, valsPart.2 ++ rest.2.1, rest.2.2)

/-- `emitTokLits` from file.go: walk the accumulated tokens from `startAt`,
emit per-token records via `emitLoop`, then emit the trailing `ENDS`
free-text record from the remaining `s`, and return `len(tokLits)` (the
caller's next cursor). -/
def emitTokLits (path : List String) (tokLits : List TokLit) (startAt : Nat) :
    List EmitRec × List DictAdd × Nat :=
  let r := emitLoop path tokLits (tokLits.length - startAt) startAt []
  let strs := goTrim (joinSpace r.2.2) strsCut
  (r.1 ++ [⟨kENDS, path, "", kSTRING, strs, true⟩], r.2.1, tokLits.length)

/-- Result of `processEntryTokens`: the emitted records and dictionary
additions (in order), the flush intervals `(startAt, len(tokLits))` of the
flushes performed at the current level (instrumentation used to state the
single-emission invariant; each flush of `emitTokLits` walks exactly the
indices of its interval), the unconsumed remainder of the token stream
(the source shares one `scanner.Scanner` across recursion levels), and the
final accumulated `tokLits` of the current level. -/
structure PTRes where
  recs : List EmitRec
  dicts : List DictAdd
  ivls : List (Nat × Nat)
  rest : List (Tok × String)
  tokLitsFinal : List TokLit
deriving DecidableEq, Repr

/-- `processEntryTokens` from file.go.  The token stream (pairs of token and
literal as returned by `scanner.Scan`; stream end models `token.EOF`) is
consumed left to right; `tokLits` and `emitted` are the current level's
accumulated tokens and flush cursor (the Go locals, threaded through the
loop's iterations, which here are recursive calls).  `fuel` decreases on
every call so the recursion is structural; every claim instantiates it
large enough that it is never exhausted (each loop iteration and each
sub-level entry consumes one unit).

Per the source: skip tokens are discarded; a positive-delta token computes
the sub-path via `nameFromTokLits`, flushes the level via `emitTokLits`
(updating the cursor), and recurses into the sub-level with a fresh
accumulation; a negative-delta token breaks out (final flush, returning the
remaining stream to the parent); a zero-delta (leaf) token is appended; any
other token merges into the previous accumulated token (single space
between the two `tokenLitString` renderings, written in place) when that
previous token's `emitted` flag is unset and its own `levelDelta` entry is
absent, and is appended otherwise. -/
def processEntryTokens :
    Nat → List (Tok × String) → List String → List TokLit → Nat → PTRes
  | 0, stream, _, tokLits, _ => ⟨[], [], [], stream, tokLits⟩
  | _ + 1, [], path, tokLits, emitted =>
    let e := emitTokLits path tokLits emitted
    ⟨e.1, e.2.1, [(emitted, tokLits.length)], [], tokLits⟩
  | fuel + 1, (tok, lit) :: rest, path, tokLits, emitted =>
    if skipToken tok then processEntryTokens fuel rest path tokLits emitted
    else
      match levelDelta tok with
      | some d =>
        if d > 0 then
          let pathPart := nameFromTokLits tokLits
          let pathSub := if pathPart ≠ ("") then path ++ [pathPart] else path
          let e := emitTokLits path tokLits emitted
          let sub := processEntryTokens fuel rest pathSub [] 0
          let cont := processEntryTokens fuel sub.rest path tokLits e.2.2
          ⟨e.1 ++ sub.recs ++ cont.recs, e.2.1 ++ sub.dicts ++ cont.dicts,
           (emitted, tokLits.length) :: cont.ivls, cont.rest, cont.tokLitsFinal⟩
        else if d < 0 then
          let e := emitTokLits path tokLits emitted
          ⟨e.1, e.2.1, [(emitted, tokLits.length)], rest, tokLits⟩
        else
          processEntryTokens fuel rest path (tokLits ++ [⟨tok, lit, false⟩]) emitted
      | none =>
        match tokLits.getLast? with
        | some prev =>
          if ¬ prev.emitted ∧ levelDelta prev.tok = none then
            processEntryTokens fuel rest path
              (tokLits.dropLast ++
                [⟨prev.tok,
                  tokenLitString prev.tok prev.lit ++ " " ++ tokenLitString tok lit,
                  prev.emitted⟩])
              emitted
          else
            processEntryTokens fuel rest path (tokLits ++ [⟨tok, lit, false⟩]) emitted
        | none =>
          processEntryTokens fuel rest path (tokLits ++ [⟨tok, lit, false⟩]) emitted

/-- The named submatches extracted from an entry's first line by
`EntryRE.FindStringSubmatchIndex` + `ExpandString` (file.go lines 112-129):
`matchEnd` is `matchIndex[1]` (the end of the whole match, where the body
begins), and the field strings are the captures of the named groups
(empty when the pattern has no such group, as `ExpandString` yields). -/
structure PrefixCaptures where
  matchEnd : Nat
  year : String
  month : String
  day : String
  hh : String
  mm : String
  ss : String
  ssss : String
  module : String
  level : String
deriving DecidableEq, Repr

/-- Character-count string length (Go's `len` on these ASCII inputs). -/
def strLen (s : String) : Nat := s.data.length

/-- Model of Go slicing `s[0:n]` (ASCII inputs). -/
def strTake (s : String) (n : Nat) : String := String.mk (s.data.take n)

/-- Model of Go slicing `s[n:]` (ASCII inputs). -/
def strDrop (s : String) (n : Nat) : String := String.mk (s.data.drop n)

/-- Model of Go `strings.ToUpper` on ASCII input. -/
def goToUpper (s : String) : String := String.mk (s.data.map Char.toUpper)

/-- The timestamp template `${year}-${month}-${day}T${HH}:${MM}:${SS}.${SSSS}`
expanded over the captures (file.go lines 117-118). -/
def expandTs (c : PrefixCaptures) : String :=
  c.year ++ "-" ++ c.month ++ "-" ++ c.day ++ "T" ++ c.hh ++ ":" ++ c.mm ++
    ":" ++ c.ss ++ "." ++ c.ssss

/-- The timestamp normalization of file.go lines 119-121: truncate the
expanded timestamp to `len("2016-04-19T23:10:31.209") = 23` characters when
longer. -/
def normTs (c : PrefixCaptures) : String :=
  let ts := expandTs c
  if strLen ts > 23 then strTake ts 23 else ts

/-- The level normalization of file.go lines 125-129: trim surrounding `[`
and `]`, upper-case, and truncate to 4 characters when longer than 4 and
not equal to `DEBUG`. -/
def normLevel (lv : String) : String :=
  let lv := goToUpper (goTrim lv ['[', ']'])
  if 4 < strLen lv ∧ lv ≠ ("DEBUG") then strTake lv 4 else lv

/-- Result of `processEntry`: the `emitEntryFull` call (normalized
timestamp, module capture, normalized level, and the lines with the matched
span stripped from the first), `none` when the entry was dropped; the
`emitEntryPart` records and `AddDictEntry` calls produced from the body;
and the entry's lines after processing (the source overwrites `lines[0]` in
place when stripping the prefix).  `processEntry` has no error path: a
non-matching first line returns this quiet result.  The module rewriting by
`emitCommonPrep` and the `ol`/offset bookkeeping (in a source file outside
the given sources) and the `EmitOrig` echo of the raw lines to stdout are
outside the modelled record stream. -/
structure PERes where
  entry : Option (String × String × String × List String)
  recs : List EmitRec
  dicts : List DictAdd
  linesAfter : List String
deriving Repr

/-- `lines` joined with a newline appended to every line (file.go lines
140-144 build the tokenizer buffer this way). -/
def joinNl : List String → String
  | [] => ""
  | l :: r => l ++ "\n" ++ joinNl r

/-- `processEntry` from file.go.  `re` models the configured
`EntryRE.FindStringSubmatchIndex`/`ExpandString` pair on the first line,
`cleanser` the optional per-source `Cleanser`, and `tokenize` the external
`go/scanner` tokenizer applied to the entry-body buffer (scanning with mode
0, which performs Go's automatic semicolon insertion).  Guard, match
failure, timestamp/module/level extraction, first-line stripping, and the
descent into `processEntryTokens` with an empty path all follow the
source. -/
def processEntry (re : String → Option PrefixCaptures)
    (cleanser : Option (String → String))
    (tokenize : String → List (Tok × String))
    (fuel : Nat) (startLine : Int) (lines : List String) : PERes :=
  if startLine ≤ 0 ∨ lines.length ≤ 0 then ⟨none, [], [], lines⟩
  else
    match lines with
    | [] => ⟨none, [], [], lines⟩
    | firstLine :: restLines =>
      match re firstLine with
      | none => ⟨none, [], [], firstLine :: restLines⟩
      | some caps =>
        let ts := normTs caps
        let level := normLevel caps.level
        let lines2 := strDrop firstLine caps.matchEnd :: restLines
        let buf := joinNl lines2
        let buf2 := match cleanser with
          | some cl => cl buf
          | none => buf
        let pt := processEntryTokens fuel (tokenize buf2) [] [] 0
        ⟨some (ts, caps.module, level, lines2), pt.recs, pt.dicts, lines2⟩

/-- `\s` of Go's regexp: `[\t\n\f\r ]`. -/
def isSpaceGo (c : Char) : Bool :=
  c == ' ' || c == '\t' || c == '\n' || c == '\x0c' || c == '\r'

/-- Exactly `n` ASCII digits from the front of `l`: the consumed digits and
the remainder. -/
def digitsN : Nat → List Char → Option (List Char × List Char)
  | 0, l => some ([], l)
  | _ + 1, [] => none
  | n + 1, c :: l =>
    if c.isDigit then (digitsN n l).map (fun p => (c :: p.1, p.2)) else none

/-- One mandatory character `c` from the front of `l`. -/
def expectChar (c : Char) : List Char → Option (List Char)
  | [] => none
  | x :: l => if x = c then some l else none

/-- A maximal non-empty run of characters satisfying `p` (the greedy `X+`
of the source's patterns over a character class; since the class and its
complement are disjoint, greedy maximal-run matching is exact). -/
def takeRun1 (p : Char → Bool) (l : List Char) :
    Option (List Char × List Char) :=
  match l.takeWhile p with
  | [] => none
  | r => some (r, l.drop r.length)

/-- Matcher embedded from `re_usual` (second source file, line 69):
`^(?P<year>\d\d\d\d)-(?P<month>\d\d)-(?P<day>\d\d)T(?P<HH>\d\d):(?P<MM>\d\d):(?P<SS>\d\d)\.(?P<SSSS>\d+)-\S+\s(?P<level>\S+)\s`,
anchored at the start; each `\d+`/`\S+` is a greedy maximal run followed by
a character outside its class, so the scan below is exact.  The pattern has
no `module` group, so that capture expands to the empty string. -/
def spaceOne : List Char → Option (List Char)
  | c :: r => if isSpaceGo c then some r else none
  | [] => none

/-- The date-time core `\d\d\d\d-\d\d-\d\dT\d\d:\d\d:\d\d\.` shared by the
source's `ymd`/`hms` pattern fragments: the six fixed-width captures and
the remainder after the dot. -/
def parseYmdHms (l : List Char) :
    Option (List Char × List Char × List Char × List Char × List Char ×
      List Char × List Char) :=
  match digitsN 4 l with
  | none => none
  | some (y, l) =>
  match expectChar '-' l with
  | none => none
  | some l =>
  match digitsN 2 l with
  | none => none
  | some (mo, l) =>
  match expectChar '-' l with
  | none => none
  | some l =>
  match digitsN 2 l with
  | none => none
  | some (d, l) =>
  match expectChar 'T' l with
  | none => none
  | some l =>
  match digitsN 2 l with
  | none => none
  | some (h, l) =>
  match expectChar ':' l with
  | none => none
  | some l =>
  match digitsN 2 l with
  | none => none
  | some (mi, l) =>
  match expectChar ':' l with
  | none => none
  | some l =>
  match digitsN 2 l with
  | none => none
  | some (se, l) =>
  match expectChar '.' l with
  | none => none
  | some l => some (y, mo, d, h, mi, se, l)

/-- The tail `(?P<SSSS>\d+)-\S+\s(?P<level>\S+)\s` of `re_usual`: the
subsecond run, the skipped zone run, and the level run.  Returns the
subsecond capture, the level capture, and the remainder after the final
whitespace. -/
def parseUsualTail (l : List Char) :
    Option (List Char × List Char × List Char) :=
  match takeRun1 (fun c => c.isDigit) l with
  | none => none
  | some (f, l) =>
  match expectChar '-' l with
  | none => none
  | some l =>
  match takeRun1 (fun c => ¬ isSpaceGo c) l with
  | none => none
  | some (_, l) =>
  match spaceOne l with
  | none => none
  | some l =>
  match takeRun1 (fun c => ¬ isSpaceGo c) l with
  | none => none
  | some (lv, l) =>
  match spaceOne l with
  | none => none
  | some l => some (f, lv, l)

/-- Matcher embedded from `re_usual` (second source file, line 69):
`^(?P<year>\d\d\d\d)-(?P<month>\d\d)-(?P<day>\d\d)T(?P<HH>\d\d):(?P<MM>\d\d):(?P<SS>\d\d)\.(?P<SSSS>\d+)-\S+\s(?P<level>\S+)\s`,
anchored at the start; each `\d+`/`\S+` is a greedy maximal run followed by
a character outside its class, so the scan is exact.  The pattern has no
`module` group, so that capture expands to the empty string. -/
def reUsualMatch (s : String) : Option PrefixCaptures :=
  match parseYmdHms s.data with
  | none => none
  | some (y, mo, d, h, mi, se, l) =>
  match parseUsualTail l with
  | none => none
  | some (f, lv, l) =>
    some ⟨s.data.length - l.length, String.mk y, String.mk mo, String.mk d,
      String.mk h, String.mk mi, String.mk se, String.mk f, "", String.mk lv⟩

/-- One scan step of `equals_bar_re.ReplaceAll(s, equals_bar_replace)` with
`equals_bar_re = =======+([^=]+)=======+` and replacement `"$1"` (second
source file, lines 88-89).  At each position: `=======+` demands a maximal
run of at least seven `=`, `[^=]+` a non-empty maximal run of non-`=`, and
the closing `=======+` again at least seven `=`; on a match the span is
replaced by the inner run wrapped in double quotes and scanning resumes
after the match, otherwise it advances one character.  Because each
sub-pattern is a maximal run over a character class disjoint from its
successor's, greedy maximal-run matching is exact and Go's leftmost
semantics coincide with this scan.  `fuel` (instantiated with the input
length) makes the recursion structural; every step consumes at least one
character. -/
def eqbarGo : Nat → List Char → List Char
  | 0, l => l
  | _ + 1, [] => []
  | fuel + 1, c :: rest =>
    let l := c :: rest
    let a := (l.takeWhile (fun x => x == '=')).length
    if 7 ≤ a then
      let afterA := l.drop a
      let mid := afterA.takeWhile (fun x => x != '=')
      if 1 ≤ mid.length then
        let afterB := afterA.drop mid.length
        let cRun := (afterB.takeWhile (fun x => x == '=')).length
        if 7 ≤ cRun then
          '"' :: (mid ++ '"' :: eqbarGo fuel (afterB.drop cRun))
        else c :: eqbarGo fuel rest
      else c :: eqbarGo fuel rest
    else c :: eqbarGo fuel rest

/-- `equals_bar_re.ReplaceAll(s, equals_bar_replace)`: the second pass of
`FileMetaNS.Cleanser`, converting `=======...text...=======` bars (at least
seven `=` on each side) into a quoted string.  On input containing no `]`,
no digit and no space-delimited lowercase-hex run, the remaining cleanser
passes (`]`-clearing, `ns_pid_re`, `re_addr`, `re_ymd_hms`, `re_uuid`) are
identity, so this pass alone decides the cleanser's effect there. -/
def equalsBarReplaceAll (s : String) : String :=
  String.mk (eqbarGo s.data.length s.data)

/-- The exact 23-character shape `YYYY-MM-DDTHH:MM:SS.sss`: four digits,
dash, two digits, dash, two digits, `T`, two digits, colon, two digits,
colon, two digits, dot, three digits. -/
def tsShape (s : String) : Bool :=
  match s.data with
  | [y1, y2, y3, y4, '-', m1, m2, '-', d1, d2, 'T', h1, h2, ':',
     n1, n2, ':', p1, p2, '.', f1, f2, f3] =>
    y1.isDigit && y2.isDigit && y3.isDigit && y4.isDigit &&
    m1.isDigit && m2.isDigit && d1.isDigit && d2.isDigit &&
    h1.isDigit && h2.isDigit && n1.isDigit && n2.isDigit &&
    p1.isDigit && p2.isDigit && f1.isDigit && f2.isDigit && f3.isDigit
  | _ => false

/-- Modelled from the amended reading of the claim about `cleanseName`
(which the counterexample forces): trim whitespace and double-quotes; the
result is empty exactly when the trimmed name contains one of `<`, `>`,
`/`, space, equals one of the five rejected keywords, starts with `0x`, or
contains any ASCII digit anywhere (the unanchored `re_int`); otherwise the
trimmed name is returned. -/
def cleanseNameSpec (name : String) : String :=
  let t := goTrim name cleanseCut
  if t.data.any (fun c => c == '<' || c == '>' || c == '/' || c == ' ') ||
      ([("true"), ("false"), ("ok"), ("pid"), ("uuid")] : List String).contains t ||
      t.data.take 2 == ['0', 'x'] ||
      t.data.any (fun c => c.isDigit)
  then ""
  else t

/-- The token stream `go/scanner` produces (mode 0) for the entry body
`foo(bar=1, baz="hi")` followed by the newline that `processEntry` appends:
identifiers and literals carry their text (string literals keep their
quotes), operators carry an empty literal, and Go's automatic semicolon
insertion adds a `SEMICOLON` with literal `"\n"` at the final newline. -/
def streamB : List (Tok × String) :=
  [(Tok.IDENT, "foo"), (Tok.LPAREN, ""), (Tok.IDENT, "bar"),
   (Tok.ASSIGN, ""), (Tok.INT, "1"), (Tok.COMMA, ""), (Tok.IDENT, "baz"),
   (Tok.ASSIGN, ""), (Tok.STRING, "\"hi\""), (Tok.RPAREN, ""),
   (Tok.SEMICOLON, "\n")]

/-- The token stream for the entry body `a(b)c` plus the appended newline
(auto-inserted semicolon as in `streamB`). -/
def streamMerge : List (Tok × String) :=
  [(Tok.IDENT, "a"), (Tok.LPAREN, ""), (Tok.IDENT, "b"), (Tok.RPAREN, ""),
   (Tok.IDENT, "c"), (Tok.SEMICOLON, "\n")]

/-- The first line of Scenario A. -/
def lineA : String :=
  "2016-04-14T16:10:09.463447-07:00 WARNING Restarting file logging"

/-- The token stream `go/scanner` produces for Scenario A's entry body
`Restarting file logging` plus the appended newline. -/
def tokensA : List (Tok × String) :=
  [(Tok.IDENT, "Restarting"), (Tok.IDENT, "file"), (Tok.IDENT, "logging"),
   (Tok.SEMICOLON, "\n")]

/-- The chain condition on one level's flush intervals: each flush starts
exactly at the cursor returned by the previous flush (its `startAt` equals
the running cursor) and ends at the level's token count at that moment,
which becomes the next cursor. -/
def flushChain : Nat → List (Nat × Nat) → Bool
  | _, [] => true
  | c, (s, e) :: r => (s == c) && (c.ble e) && flushChain e r

/-- C1, counterexample: processing the token stream of entry body
`foo(bar=1, baz="hi")` does not emit NAME records for `bar` and `baz`
registered in the Dictionary, contrary to the claim: the only `VALS` record
and the only `AddDictEntry` call carry the name `foo` with literal kind `;`
(from the auto-inserted trailing semicolon), because the `=` tokens (absent
from `levelDelta`) merge into the preceding identifiers, and the resulting
names `bar =` and `baz =` are rejected by `cleanseName` for containing a
space. -/
theorem scenarioB_no_bar_baz_records :
    ((processEntryTokens 100 streamB [] [] 0).recs.filter
        (fun r => r.kind == kVALS)) =
      [⟨kVALS, [], "foo", ";", "\n", false⟩] ∧
    (processEntryTokens 100 streamB [] [] 0).dicts =
      [⟨";", "foo", "\n"⟩] ∧
    (processEntryTokens 100 streamB [] [] 0).recs.all
      (fun r => r.name != ("bar") && r.name != ("baz")) = true := by
  refine ⟨rfl, rfl, ?_⟩
  decide

/-- C1, amended claim: for entry body `foo(bar=1, baz="hi")`, the tokens
inside the parentheses are processed with path `["foo"]` (every record the
sub-level emits carries that path), but no NAME record is produced for
`bar` or `baz` — the `=` tokens merge into the preceding identifiers and
`cleanseName` rejects `bar =` and `baz =`; the full output is the free-text
records below (all empty by the emitter's dead `s` accumulator) plus a
single `VALS` record and Dictionary entry `(";", "foo", "\n")` from the
trailing inserted semicolon. -/
theorem scenarioB_processed :
    (processEntryTokens 100 streamB [] [] 0).recs =
      [⟨kMIDS, [], "", kSTRING, "", true⟩,
       ⟨kENDS, [], "", kSTRING, "", true⟩,
       ⟨kMIDS, ["foo"], "", kSTRING, "", true⟩,
       ⟨kMIDS, ["foo"], "", kSTRING, "", true⟩,
       ⟨kMIDS, ["foo"], "", kSTRING, "", true⟩,
       ⟨kMIDS, ["foo"], "", kSTRING, "", true⟩,
       ⟨kMIDS, ["foo"], "", kSTRING, "", true⟩,
       ⟨kENDS, ["foo"], "", kSTRING, "", true⟩,
       ⟨kMIDS, [], "", kSTRING, "", true⟩,
       ⟨kVALS, [], "foo", ";", "\n", false⟩,
       ⟨kENDS, [], "", kSTRING, "", true⟩] ∧
    (processEntryTokens 100 streamB [] [] 0).dicts =
      [⟨";", "foo", "\n"⟩] := by
  constructor <;> rfl

/-- C2: in the `emitTokLits` of the source as given, the free-text records
carry the empty string, not the mergeable tokens' text.  On the level
tokens `IDENT "hello"`, `INT "1"` the claim expects the free-text record at
the leaf `1` to carry `hello`; instead every token (mergeable or leaf)
produces a `MIDS` record with empty literal, and the text `hello` survives
only as the `VALS` name — the local `s` accumulator is joined, trimmed and
reset but never appended to. -/
theorem emitTokLits_free_text_empty :
    emitTokLits ["p"] [⟨Tok.IDENT, "hello", false⟩, ⟨Tok.INT, "1", false⟩] 0 =
      ([⟨kMIDS, ["p"], "", kSTRING, "", true⟩,
        ⟨kMIDS, ["p"], "", kSTRING, "", true⟩,
        ⟨kVALS, ["p"], "hello", "INT", "1", false⟩,
        ⟨kENDS, ["p"], "", kSTRING, "", true⟩],
       [⟨"INT", "hello", "1"⟩], 2) ∧
    ∀ r ∈ (emitTokLits ["p"]
        [⟨Tok.IDENT, "hello", false⟩, ⟨Tok.INT, "1", false⟩] 0).1,
      r.freeText = true → r.lit = ("") := by
  refine ⟨rfl, ?_⟩
  decide

/-- C4: processing the token stream of entry body `a(b)c` merges the token
`c` into the previously accumulated token `a` even though `a` was already
flushed (interval `(0, 1)`) before the recursion into `(b)`: the `emitted`
flag is only ever set on a local copy inside `emitTokLits`, so the merge
guard `!tokLitPrev.emitted` always passes.  The level ends with the merged
token `a c` at index 0, the post-flush intervals `[(0,1), (1,2)]` never
revisit index 0, and the text `c` appears in no emitted record. -/
theorem merge_into_flushed_token :
    (processEntryTokens 100 streamMerge [] [] 0).tokLitsFinal =
      [⟨Tok.IDENT, "a c", false⟩, ⟨Tok.SEMICOLON, "\n", false⟩] ∧
    (processEntryTokens 100 streamMerge [] [] 0).ivls = [(0, 1), (1, 2)] ∧
    (processEntryTokens 100 streamMerge [] [] 0).recs.all
      (fun r => r.lit != ("c") && r.lit != ("a c")) = true := by
  refine ⟨rfl, rfl, ?_⟩
  decide

/-- C5: processing Scenario A's first line with the `re_usual` matcher
yields the normalized timestamp `2016-04-14T16:10:09.463` and level `WARN`
as claimed, and strips the matched span from the first line; but the
free-text record claimed to carry `Restarting file logging` is not
produced: all emitted records are free-text records with empty literal
(the `emitTokLits` slip of C2). -/
theorem scenarioA_processed :
    (processEntry reUsualMatch none (fun _ => tokensA) 100 1 [lineA]).entry =
      some ("2016-04-14T16:10:09.463", "", "WARN",
        ["Restarting file logging"]) ∧
    (processEntry reUsualMatch none (fun _ => tokensA) 100 1 [lineA]).recs =
      [⟨kMIDS, [], "", kSTRING, "", true⟩,
       ⟨kMIDS, [], "", kSTRING, "", true⟩,
       ⟨kENDS, [], "", kSTRING, "", true⟩] ∧
    (processEntry reUsualMatch none (fun _ => tokensA) 100 1 [lineA]).recs.all
      (fun r => r.lit != ("Restarting file logging")) = true := by
  refine ⟨rfl, rfl, ?_⟩
  decide

/-- C3, counterexample: `cleanseName` rejects `abc123`, a name that merely
contains digits, because `re_int` is the unanchored pattern `\d+` and
`MatchString` succeeds on any string containing a digit; the claim says
such a name is returned unchanged. -/
theorem cleanseName_rejects_abc123 :
    cleanseName ("abc123") = ("") ∧ cleanseName ("abc123") ≠ ("abc123") := by
  decide

/-- C8, counterexample: the equals-bar pass of the ns-server cleanser
leaves `===PROGRESS REPORT===` unchanged — `equals_bar_re` demands at
least seven `=` on each side (`=======+`), and three do not match — so the
span is not rewritten to the quoted string the claim expects. -/
theorem equalsBar_three_unchanged :
    equalsBarReplaceAll ("===PROGRESS REPORT===") =
      ("===PROGRESS REPORT===") ∧
    equalsBarReplaceAll ("===PROGRESS REPORT===") ≠
      ("\"PROGRESS REPORT\"") := by
  decide

/-- C8, amended claim: the ns-server cleanser's equals-bar pass rewrites a
`PROGRESS REPORT` span only when it is delimited by runs of at least seven
`=` on each side: the thirteen-equals bar of the source's own comment and
the minimal seven-equals bar both become the quoted string
`"PROGRESS REPORT"`, while the three-equals span of the claim is left
unchanged. -/
theorem equalsBar_seven_rewrites :
    equalsBarReplaceAll
        ("=============PROGRESS REPORT=============") =
      ("\"PROGRESS REPORT\"") ∧
    equalsBarReplaceAll ("=======PROGRESS REPORT=======") =
      ("\"PROGRESS REPORT\"") ∧
    equalsBarReplaceAll ("===PROGRESS REPORT===") =
      ("===PROGRESS REPORT===") := by
  refine ⟨rfl, rfl, rfl⟩

/-- C9: when the configured prefix pattern fails to match an entry's first
line, `processEntry` returns the quiet empty result: no entry record, no
part records, no Dictionary additions, and the lines (the first line
included) unchanged; `processEntry` has no error result at all, so the
drop is not reported as an error. -/
theorem processEntry_drop_on_mismatch
    (re : String → Option PrefixCaptures)
    (cleanser : Option (String → String))
    (tokenize : String → List (Tok × String))
    (fuel : Nat) (startLine : Int) (firstLine : String)
    (restLines : List String)
    (h : re firstLine = none) :
    processEntry re cleanser tokenize fuel startLine
        (firstLine :: restLines) =
      ⟨none, [], [], firstLine :: restLines⟩ := by
  unfold processEntry
  split
  · rfl
  · simp [h]

/-- C9 witness: the line `no match here` is rejected by `re_usual` and the
entry is dropped quietly. -/
theorem processEntry_drop_on_mismatch_witness :
    processEntry reUsualMatch none (fun _ => []) 100 1 [("no match here")] =
      ⟨none, [], [], [("no match here")]⟩ :=
  processEntry_drop_on_mismatch reUsualMatch none (fun _ => []) 100 1
    ("no match here") [] (by rfl)

theorem flushChain_cons {c s e : Nat} {r : List (Nat × Nat)}
    (h1 : s = c) (h2 : c ≤ e) (h3 : flushChain e r = true) :
    flushChain c ((s, e) :: r) = true := by
  simp [flushChain, h1, h2, h3, Nat.ble_eq]

theorem flushChain_le (l : List (Nat × Nat)) :
    ∀ c, flushChain c l = true → ∀ p ∈ l, c ≤ p.1 ∧ p.1 ≤ p.2 := by
  induction l with
  | nil => simp
  | cons hd tl ih =>
    intro c hc p hp
    rcases hd with ⟨s, e⟩
    simp only [flushChain, Bool.and_eq_true, beq_iff_eq, Nat.ble_eq] at hc
    rcases List.mem_cons.mp hp with rfl | hp2
    · exact ⟨Nat.le_of_eq hc.1.1.symm, hc.1.1 ▸ hc.1.2⟩
    · have h2 := ih e hc.2 p hp2
      exact ⟨Nat.le_trans hc.1.2 h2.1, h2.2⟩

theorem flushChain_pairwise (l : List (Nat × Nat)) :
    ∀ c, flushChain c l = true →
      List.Pairwise (fun p q : Nat × Nat => p.2 ≤ q.1) l := by
  induction l with
  | nil => simp
  | cons hd tl ih =>
    intro c hc
    rcases hd with ⟨s, e⟩
    simp only [flushChain, Bool.and_eq_true, beq_iff_eq, Nat.ble_eq] at hc
    constructor
    · intro q hq
      exact (flushChain_le tl e hc.2 q hq).1
    · exact ih e hc.2

theorem processEntryTokens_chain (fuel : Nat) :
    ∀ (stream : List (Tok × String)) (path : List String)
      (tokLits : List TokLit) (emitted : Nat),
      emitted ≤ tokLits.length →
      flushChain emitted
        (processEntryTokens fuel stream path tokLits emitted).ivls = true := by
  induction fuel with
  | zero =>
    intro stream path tokLits emitted _
    simp [processEntryTokens, flushChain]
  | succ n ih =>
    intro stream path tokLits emitted h
    match stream with
    | [] =>
      show flushChain emitted [(emitted, tokLits.length)] = true
      exact flushChain_cons rfl h rfl
    | (tok, lit) :: rest =>
      by_cases hskip : skipToken tok = true
      · simpa [processEntryTokens, hskip] using ih rest path tokLits emitted h
      · rcases hd : levelDelta tok with _ | d
        · -- mergeable token: merge or append
          rcases hl : tokLits.getLast? with _ | prev
          · have hlen :
                emitted ≤ (tokLits ++ [(⟨tok, lit, false⟩ : TokLit)]).length := by
              simp only [List.length_append, List.length_cons, List.length_nil]
              omega
            simpa [processEntryTokens, hskip, hd, hl] using
              ih rest path (tokLits ++ [(⟨tok, lit, false⟩ : TokLit)]) emitted hlen
          · have hne : tokLits ≠ [] := by
              intro hnil
              rw [hnil] at hl
              simp at hl
            have hpos : 0 < tokLits.length := List.length_pos.mpr hne
            by_cases hm : (prev.emitted = false ∧ levelDelta prev.tok = none)
            · have hlen :
                  emitted ≤ (tokLits.dropLast ++
                    [(⟨prev.tok,
                      tokenLitString prev.tok prev.lit ++ " " ++
                        tokenLitString tok lit, prev.emitted⟩ : TokLit)]).length := by
                simp only [List.length_append, List.length_dropLast,
                  List.length_cons, List.length_nil]
                omega
              simpa [processEntryTokens, hskip, hd, hl, hm] using
                ih rest path _ emitted hlen
            · have hlen :
                  emitted ≤ (tokLits ++ [(⟨tok, lit, false⟩ : TokLit)]).length := by
                simp only [List.length_append, List.length_cons, List.length_nil]
                omega
              simpa [processEntryTokens, hskip, hd, hl, hm] using
                ih rest path (tokLits ++ [(⟨tok, lit, false⟩ : TokLit)]) emitted hlen
        · -- structural or leaf token
          by_cases hgt : d > 0
          · have hsub :=
              ih ((processEntryTokens n rest
                    (if nameFromTokLits tokLits ≠ ("") then
                      path ++ [nameFromTokLits tokLits]
                    else path) [] 0).rest) path tokLits tokLits.length
                (Nat.le_refl _)
            simp only [processEntryTokens, hskip, hd, if_pos hgt]
            exact flushChain_cons rfl h hsub
          · by_cases hlt : d < 0
            · simp only [processEntryTokens, hskip, hd, if_neg hgt, if_pos hlt]
              exact flushChain_cons rfl h rfl
            · have hlen :
                  emitted ≤ (tokLits ++ [(⟨tok, lit, false⟩ : TokLit)]).length := by
                simp only [List.length_append, List.length_cons, List.length_nil]
                omega
              simpa [processEntryTokens, hskip, hd, if_neg hgt, if_neg hlt] using
                ih rest path (tokLits ++ [(⟨tok, lit, false⟩ : TokLit)]) emitted hlen

/-- C7: across all the flushes performed while processing one level of an
entry (the flush before each recursion into a structural-open and the
final flush at end of level), the flush intervals form a chain — each
flush starts at the cursor where the previous one stopped — and are
therefore pairwise disjoint, so every accumulated token index produces
output records in at most one flush: no token is emitted a second time.
The hypothesis `emitted ≤ tokLits.length` holds at every call site of the
source (`emitted` starts at 0 and is only ever set to a previous
`len(tokLits)`). -/
theorem flushes_emit_at_most_once (fuel : Nat)
    (stream : List (Tok × String)) (path : List String)
    (tokLits : List TokLit) (emitted : Nat)
    (h : emitted ≤ tokLits.length) :
    flushChain emitted
        (processEntryTokens fuel stream path tokLits emitted).ivls = true ∧
    List.Pairwise (fun p q : Nat × Nat => p.2 ≤ q.1)
      (processEntryTokens fuel stream path tokLits emitted).ivls := by
  have hc := processEntryTokens_chain fuel stream path tokLits emitted h
  exact ⟨hc, flushChain_pairwise _ emitted hc⟩

/-- C7 witness: the flush intervals of a concrete three-token entry body
`x()` chain from cursor 0 and are pairwise disjoint. -/
theorem flushes_emit_at_most_once_witness :
    flushChain 0
        (processEntryTokens 20
          [(Tok.IDENT, "x"), (Tok.LPAREN, ""), (Tok.RPAREN, "")]
          [] [] 0).ivls = true ∧
    List.Pairwise (fun p q : Nat × Nat => p.2 ≤ q.1)
      (processEntryTokens 20
        [(Tok.IDENT, "x"), (Tok.LPAREN, ""), (Tok.RPAREN, "")]
        [] [] 0).ivls :=
  flushes_emit_at_most_once 20
    [(Tok.IDENT, "x"), (Tok.LPAREN, ""), (Tok.RPAREN, "")] [] [] 0
    (Nat.le_refl 0)

theorem listAnyCongr {l : List Char} {f g : Char → Bool}
    (h : ∀ c, f c = g c) : l.any f = l.any g := by
  induction l with
  | nil => rfl
  | cons c cs ih => simp [h, ih]

theorem badCharsEq (c : Char) : (['<', '>', '/', ' '] : List Char).contains c =
    (c == '<' || c == '>' || c == '/' || c == ' ') := by
  rw [Bool.eq_iff_iff]
  simp [List.contains]
  tauto

theorem goHasPfx_0x (t : String) :
    goHasPfx t ("0x") = (t.data.take 2 == ['0', 'x']) := by
  rw [Bool.eq_iff_iff, goHasPfx]
  rw [List.isPrefixOf_iff_prefix, List.prefix_iff_eq_take]
  simp only [List.length_cons, List.length_nil, beq_iff_eq]
  exact eq_comm

theorem keywordsEq (t : String) :
    (t == ("true") || t == ("false") || t == ("ok") || t == ("pid") ||
      t == ("uuid"))
    = ([("true"), ("false"), ("ok"), ("pid"), ("uuid")] :
        List String).contains t := by
  rw [Bool.eq_iff_iff]
  simp [List.contains]
  tauto

theorem cleanseCondEq (t : String) :
    (indexAnyNonneg t ['<', '>', '/', ' '] ||
      t == ("true") || t == ("false") ||
      t == ("ok") || t == ("pid") || t == ("uuid") ||
      goHasPfx t ("0x") || reIntMatch t)
    = (t.data.any (fun c => c == '<' || c == '>' || c == '/' || c == ' ') ||
      ([("true"), ("false"), ("ok"), ("pid"), ("uuid")] :
        List String).contains t ||
      t.data.take 2 == ['0', 'x'] ||
      t.data.any (fun c => c.isDigit)) := by
  rw [show indexAnyNonneg t ['<', '>', '/', ' '] =
    t.data.any (fun c => c == '<' || c == '>' || c == '/' || c == ' ') from
    listAnyCongr (fun c => badCharsEq c)]
  rw [← keywordsEq t, ← goHasPfx_0x t]
  rw [show t.data.any (fun c => c.isDigit) = reIntMatch t from rfl]
  simp [Bool.or_assoc]

/-- C3, amended claim: `cleanseName` trims surrounding whitespace and
double-quotes and returns the empty string exactly when the trimmed name
contains one of `<`, `>`, `/`, space, equals `true`, `false`, `ok`, `pid`
or `uuid`, starts with `0x`, or contains any digit anywhere (`re_int` is
the unanchored `\d+`, so mixed names such as `abc123` are rejected, not
only purely numeric ones); every other name is returned trimmed.  This is
stated as pointwise equality with `cleanseNameSpec`, the definition that
follows the amended wording. -/
theorem cleanseName_eq_spec (name : String) :
    cleanseName name = cleanseNameSpec name := by
  simp only [cleanseName, cleanseNameSpec]
  rw [cleanseCondEq]

theorem cleanseName_no_bad (s : String) :
    ∀ c ∈ (cleanseName s).data, ¬(c = '<' ∨ c = '>' ∨ c = '/' ∨ c = ' ') := by
  intro c hc hbad
  simp only [cleanseName] at hc
  split at hc
  · simp at hc
  · rename_i hcond
    apply hcond
    have hany : indexAnyNonneg (goTrim s cleanseCut) ['<', '>', '/', ' '] = true := by
      unfold indexAnyNonneg
      refine List.any_eq_true.mpr ⟨c, hc, ?_⟩
      rw [badCharsEq]
      rcases hbad with h1 | h1 | h1 | h1 <;> simp [h1]
    simp [hany]

theorem splitSpaceList_no_space (l : List Char)
    (h : ∀ c ∈ l, c ≠ ' ') : splitSpaceList l = [l] := by
  induction l with
  | nil => rfl
  | cons c rest ih =>
    have hc : c ≠ ' ' := h c (List.mem_cons_self c rest)
    have hr := ih (fun x hx => h x (List.mem_cons_of_mem c hx))
    simp [splitSpaceList, hr, hc]

theorem goSplitSpace_no_space (n : String)
    (h : ∀ c ∈ n.data, c ≠ ' ') : goSplitSpace n = [n] := by
  unfold goSplitSpace
  rw [splitSpaceList_no_space n.data h]
  rfl

theorem emitLoop_sound (path : List String) (tokLits : List TokLit) :
    ∀ (count i : Nat) (s : List String),
    (∀ r ∈ (emitLoop path tokLits count i s).1, r.kind = kVALS →
      r.name ≠ ("") ∧
      (∀ c ∈ r.name.data, ¬(c = '<' ∨ c = '>' ∨ c = '/' ∨ c = ' ')) ∧
      r.path = path) ∧
    (∀ d ∈ (emitLoop path tokLits count i s).2.1,
      d.name ≠ ("") ∧
      ∀ c ∈ d.name.data, ¬(c = '<' ∨ c = '>' ∨ c = '/' ∨ c = ' ')) := by
  intro count
  induction count with
  | zero => intro i s; simp [emitLoop]
  | succ n ih =>
    intro i s
    rcases hti : tokLits[i]? with _ | tl
    · simp [emitLoop, hti]
    · by_cases he : tl.emitted = true
      · simpa [emitLoop, hti, he] using ih (i + 1) s
      · have hee : tl.emitted = false := by
          cases h : tl.emitted
          · rfl
          · exact absurd h he
        by_cases hn : cleanseName (nameFromTokLits (tokLits.take i)) = ("")
        · constructor
          · intro r hr hk
            simp only [emitLoop, hti, hee, Bool.false_eq_true, if_false,
              hn, ne_eq, not_true_eq_false, if_false] at hr
            rcases List.mem_cons.mp hr with rfl | hr2
            · exact absurd hk (by simp [kMIDS, kVALS])
            · exact (ih (i + 1) []).1 r (by simpa using hr2) hk
          · intro d hd
            simp only [emitLoop, hti, hee, Bool.false_eq_true, if_false,
              hn, ne_eq, not_true_eq_false, if_false] at hd
            exact (ih (i + 1) []).2 d (by simpa using hd)
        · have hgood := cleanseName_no_bad (nameFromTokLits (tokLits.take i))
          have hnosp : ∀ c ∈ (cleanseName (nameFromTokLits (tokLits.take i))).data,
              c ≠ ' ' := by
            intro c hc hsp
            exact hgood c hc (Or.inr (Or.inr (Or.inr hsp)))
          have hsplit := goSplitSpace_no_space _ hnosp
          have hpair : (if path.length ≤ 0 then
              ((goSplitSpace (cleanseName (nameFromTokLits (tokLits.take i)))).dropLast,
               (goSplitSpace (cleanseName (nameFromTokLits (tokLits.take i)))).getLastD "")
            else (path, cleanseName (nameFromTokLits (tokLits.take i)))) =
              (path, cleanseName (nameFromTokLits (tokLits.take i))) := by
            split
            · rename_i hle
              have hpe : path = [] := List.length_eq_zero.mp (Nat.le_zero.mp hle)
              rw [hsplit]
              simp [hpe]
            · rfl
          constructor
          · intro r hr hk
            simp only [emitLoop, hti, hee, Bool.false_eq_true, if_false, hn,
              ne_eq, not_false_eq_true, if_true, hpair] at hr
            rcases List.mem_cons.mp hr with rfl | hr2
            · exact absurd hk (by simp [kMIDS, kVALS])
            · rcases List.mem_append.mp hr2 with hr3 | hr4
              · rcases List.mem_singleton.mp hr3 with rfl
                exact ⟨hn, hgood, rfl⟩
              · exact (ih (i + 1) []).1 r hr4 hk
          · intro d hd
            simp only [emitLoop, hti, hee, Bool.false_eq_true, if_false, hn,
              ne_eq, not_false_eq_true, if_true, hpair] at hd
            rcases List.mem_append.mp hd with hd1 | hd2
            · rcases List.mem_singleton.mp hd1 with rfl
              exact ⟨hn, hgood⟩
            · exact (ih (i + 1) []).2 d hd2

/-- C10: every `VALS` (NAME) record and every `AddDictEntry` call produced
by `emitTokLits` carries a name that is non-empty and free of `<`, `>`,
`/` and space, because it passed `cleanseName`; consequently the
empty-path fallback (splitting the name on spaces) never changes the name
or the path: the record's path always equals the level's path. -/
theorem vals_names_cleansed (path : List String) (tokLits : List TokLit)
    (startAt : Nat) :
    (∀ r ∈ (emitTokLits path tokLits startAt).1, r.kind = kVALS →
      r.name ≠ ("") ∧
      (∀ c ∈ r.name.data, ¬(c = '<' ∨ c = '>' ∨ c = '/' ∨ c = ' ')) ∧
      r.path = path) ∧
    (∀ d ∈ (emitTokLits path tokLits startAt).2.1,
      d.name ≠ ("") ∧
      ∀ c ∈ d.name.data, ¬(c = '<' ∨ c = '>' ∨ c = '/' ∨ c = ' ')) := by
  constructor
  · intro r hr hk
    simp only [emitTokLits] at hr
    rcases List.mem_append.mp hr with h1 | h2
    · exact (emitLoop_sound path tokLits _ startAt []).1 r h1 hk
    · rcases List.mem_singleton.mp h2 with rfl
      exact absurd hk (by simp [kENDS, kVALS])
  · intro d hd
    simp only [emitTokLits] at hd
    exact (emitLoop_sound path tokLits _ startAt []).2 d hd

/-- C10 witness: the `VALS` record produced from tokens `k`, `7` at path
`["p"]` has the non-empty, clean name `k` and the level's own path. -/
theorem vals_names_cleansed_witness :
    (⟨kVALS, ["p"], "k", "INT", "7", false⟩ : EmitRec).name ≠ ("") ∧
    (∀ c ∈ (⟨kVALS, ["p"], "k", "INT", "7", false⟩ : EmitRec).name.data,
      ¬(c = '<' ∨ c = '>' ∨ c = '/' ∨ c = ' ')) ∧
    (⟨kVALS, ["p"], "k", "INT", "7", false⟩ : EmitRec).path = ["p"] :=
  (vals_names_cleansed ["p"]
      [⟨Tok.IDENT, "k", false⟩, ⟨Tok.INT, "7", false⟩] 0).1
    ⟨kVALS, ["p"], "k", "INT", "7", false⟩ (by decide) (by rfl)

theorem strDataAppend (s t : String) : (s ++ t).data = s.data ++ t.data := rfl

/-- C6: whenever the captured prefix fields have the widths the source's
patterns enforce (`\d\d\d\d` year, `\d\d` month/day/hour/minute/second)
and the subsecond capture has at least three digits, the normalized
timestamp built by `processEntry` (expansion of the timestamp template,
truncated at 23) is exactly 23 characters in the shape
`YYYY-MM-DDTHH:MM:SS.sss`. -/
theorem normTs_shape (caps : PrefixCaptures)
    (hy : caps.year.data.length = 4)
    (hyD : ∀ c ∈ caps.year.data, c.isDigit = true)
    (hmo : caps.month.data.length = 2)
    (hmoD : ∀ c ∈ caps.month.data, c.isDigit = true)
    (hd : caps.day.data.length = 2)
    (hdD : ∀ c ∈ caps.day.data, c.isDigit = true)
    (hh : caps.hh.data.length = 2)
    (hhD : ∀ c ∈ caps.hh.data, c.isDigit = true)
    (hm : caps.mm.data.length = 2)
    (hmD : ∀ c ∈ caps.mm.data, c.isDigit = true)
    (hs : caps.ss.data.length = 2)
    (hsD : ∀ c ∈ caps.ss.data, c.isDigit = true)
    (hf : 3 ≤ caps.ssss.data.length)
    (hfD : ∀ c ∈ caps.ssss.data, c.isDigit = true) :
    tsShape (normTs caps) = true := by
  obtain ⟨y1, yr, hyr⟩ := List.exists_of_length_succ _ hy
  rw [hyr] at hy hyD
  simp only [List.length_cons] at hy
  obtain ⟨y2, y3, y4, hyr2⟩ := List.length_eq_three.mp (by omega : yr.length = 3)
  subst hyr2
  obtain ⟨m1, m2, hmor⟩ := List.length_eq_two.mp hmo
  obtain ⟨d1, d2, hdr⟩ := List.length_eq_two.mp hd
  obtain ⟨h1, h2, hhr⟩ := List.length_eq_two.mp hh
  obtain ⟨n1, n2, hmr⟩ := List.length_eq_two.mp hm
  obtain ⟨p1, p2, hsr⟩ := List.length_eq_two.mp hs
  rcases hfl : caps.ssss.data with _ | ⟨f1, _ | ⟨f2, _ | ⟨f3, frest⟩⟩⟩ <;>
    rw [hfl] at hf <;> simp at hf
  rw [hfl] at hfD
  rw [hmor] at hmoD
  rw [hdr] at hdD
  rw [hhr] at hhD
  rw [hmr] at hmD
  rw [hsr] at hsD
  simp only [List.mem_cons, List.mem_singleton, forall_eq_or_imp, forall_eq,
    List.not_mem_nil, false_imp_iff, and_true] at hyD hmoD hdD hhD hmD hsD hfD
  have hexp : (expandTs caps).data =
      y1 :: y2 :: y3 :: y4 :: '-' :: m1 :: m2 :: '-' :: d1 :: d2 :: 'T' ::
      h1 :: h2 :: ':' :: n1 :: n2 :: ':' :: p1 :: p2 :: '.' ::
      f1 :: f2 :: f3 :: frest := by
    simp [expandTs, strDataAppend, hyr, hmor, hdr, hhr, hmr, hsr, hfl]
  rcases frest with _ | ⟨r1, rrest⟩
  · have hlen : ¬ (strLen (expandTs caps) > 23) := by
      simp [strLen, hexp]
    rw [normTs, if_neg hlen]
    simp [tsShape, hexp, hyD, hmoD, hdD, hhD, hmD, hsD, hfD]
  · have hlen : strLen (expandTs caps) > 23 := by
      simp [strLen, hexp]
    rw [normTs, if_pos hlen]
    have htake : (expandTs caps).data.take 23 =
        [y1, y2, y3, y4, '-', m1, m2, '-', d1, d2, 'T', h1, h2, ':',
         n1, n2, ':', p1, p2, '.', f1, f2, f3] := by
      rw [hexp]
      rfl
    simp [tsShape, strTake, htake, hyD, hmoD, hdD, hhD, hmD, hsD, hfD]

/-- C6 witness: the Scenario A captures (subsecond `463447`, six digits)
normalize to a 23-character timestamp of the required shape. -/
theorem normTs_shape_witness :
    tsShape (normTs ⟨41, "2016", "04", "14", "16", "10", "09", "463447",
      "", "WARNING"⟩) = true :=
  normTs_shape ⟨41, "2016", "04", "14", "16", "10", "09", "463447", "",
      "WARNING"⟩
    (by decide) (by decide) (by decide) (by decide) (by decide) (by decide)
    (by decide) (by decide) (by decide) (by decide) (by decide) (by decide)
    (by decide) (by decide)
